import Mathlib

/-!
Shallow embedding of the ome-slicer repository (src/omeslicer/core.py).

The program is a single class OMESlicer.  Its mutable OME metadata
documents (ome_types models) are modelled by an explicit heap of
document values, so that deep-copy-on-crop and absence of mutation of
the parent descriptor are provable facts rather than artifacts of a
pure embedding.  The file system and the pyvips page decoder are
modelled as finite maps; fallible calls return Option.  The save
method returns, beside its result, the list of I/O events it performs,
so that ordering and absence of I/O before an error are statable.

External library calls (tifffile writes, pyvips decode) are modelled
at the call boundary: a written page records exactly the arguments the
code passes to the writer.
-/

/-- The pixels element of the first image of an OME document: the fields
of ome_types that core.py reads or writes (size_x, size_y, size_c and
the pixel type string). -/
structure Pixels where
  size_x : Int
  size_y : Int
  size_c : Int
  type : String
deriving DecidableEq

/-- One image element of an OME document. -/
structure OMEImage where
  pixels : Pixels
deriving DecidableEq

/-- An in-memory OME metadata document (the object returned by from_xml).
Its XML serialization is modelled by the document value itself, since
to_xml is injective on the documents the program builds. -/
structure OMEDoc where
  images : List OMEImage
deriving DecidableEq

/-- A heap of mutable OME documents; a reference is an index into the
cell list.  copy.deepcopy allocates a fresh cell, field assignment
writes a cell in place. -/
structure Heap where
  cells : List OMEDoc
deriving DecidableEq

/-- Dereference a document reference. -/
def Heap.get (h : Heap) (r : Nat) : Option OMEDoc :=
  h.cells[r]?

/-- Allocate a fresh cell holding document d; returns the new heap and
the fresh reference. -/
def Heap.alloc (h : Heap) (d : OMEDoc) : Heap × Nat :=
  (⟨h.cells ++ [d]⟩, h.cells.length)

/-- Overwrite the cell at reference r with document d. -/
def Heap.set (h : Heap) (r : Nat) (d : OMEDoc) : Heap :=
  ⟨h.cells.set r d⟩

/-- A decoded image plane as pyvips presents it: width, height and the
sample at each (column, row). -/
structure Plane where
  width : Nat
  height : Nat
  pix : Nat → Nat → Int

/-- An OME-TIFF file on disk: its embedded OME-XML (none when missing
or unparsable) and its pages, one plane per page. -/
structure SourceFile where
  ome_meta : Option OMEDoc
  pages : List Plane

/-- The file system: what tifffile and pyvips find at each path. -/
def FS := String → Option SourceFile

/-- The numpy dtypes that core.py mentions. -/
inductive Dtype
  | uint8 | uint16 | uint32 | int8 | int16 | int32 | float32 | float64
deriving DecidableEq

/-- The OMESlicer object: its attributes as assigned in __init__.
ome is a reference into the document heap; ome_metadata is the XML
string attribute, modelled by its parsed content. -/
structure OMESlicer where
  ome_tiff_path : String
  pyvips_image : Option Plane
  ome : Nat
  ome_metadata : OMEDoc
  crop_info : Option (Int × Int × Int × Int)
  cropped_dimensions : Option (Int × Int)

/-- Constructor from a file path: reads tif.ome_metadata (fails when the
file is missing or carries no parsable OME-XML), parses it into a
fresh document cell, and leaves crop_info and cropped_dimensions unset. -/
def OMESlicer.fromPath (heap : Heap) (fs : FS) (path : String) :
    Option (Heap × OMESlicer) :=
  match fs path with
  | none => none
  | some f =>
    match f.ome_meta with
    | none => none
    | some doc =>
      let a := heap.alloc doc
      some (a.1,
        { ome_tiff_path := path
          pyvips_image := none
          ome := a.2
          ome_metadata := doc
          crop_info := none
          cropped_dimensions := none })

/-- The document produced by overwriting size_x and size_y of the first
image of a document with images img :: rest, as the two assignments in
_update_metadata_for_crop do. -/
def cropDoc (img : OMEImage) (rest : List OMEImage) (w h : Int) : OMEDoc :=
  ⟨{ img with pixels := { img.pixels with size_x := w, size_y := h } } :: rest⟩

/-- Method update_metadata_for_crop: deep-copies the document at ref
into a fresh cell, overwrites the first-image size fields of that copy
in place, and returns its serialization.  Fails (IndexError) when the
document has no images; fails when ref dangles (unreachable from the
program). -/
def OMESlicer.update_metadata_for_crop (heap : Heap) (ref : Nat) (w h : Int) :
    Option (Heap × OMEDoc) :=
  match heap.get ref with
  | none => none
  | some doc =>
    let a := heap.alloc doc
    match doc.images with
    | [] => none
    | img :: rest =>
      let d := cropDoc img rest w h
      some ((a.1).set a.2 d, d)

/-- crop, i.e. __init__ from an existing slicer: keeps the source path,
deep-copies the source document into a fresh cell, records crop_info
and cropped_dimensions, and computes ome_metadata with
_update_metadata_for_crop; the pyvips image is not inherited. -/
def OMESlicer.crop (heap : Heap) (s : OMESlicer) (x y w h : Int) :
    Option (Heap × OMESlicer) :=
  match heap.get s.ome with
  | none => none
  | some doc =>
    let a := heap.alloc doc
    match OMESlicer.update_metadata_for_crop a.1 a.2 w h with
    | none => none
    | some (heap2, xml) =>
      some (heap2,
        { ome_tiff_path := s.ome_tiff_path
          pyvips_image := none
          ome := a.2
          ome_metadata := xml
          crop_info := some (x, y, w, h)
          cropped_dimensions := some (w, h) })

/-- pyvips.Image.new_from_file(path, page=p): fails when the file is
missing or has no page p. -/
def pyvips_new_from_file (fs : FS) (path : String) (page : Nat) : Option Plane :=
  match fs path with
  | none => none
  | some f => f.pages[page]?

/-- load_pyvips_image: loads the requested page only when no image is
cached yet, and caches it; otherwise returns the cached image.  The
slicer is threaded explicitly because the method assigns to
self.pyvips_image. -/
def OMESlicer.load_pyvips_image (fs : FS) (s : OMESlicer) (page : Nat) :
    Option (OMESlicer × Plane) :=
  match s.pyvips_image with
  | some img => some (s, img)
  | none =>
    match pyvips_new_from_file fs s.ome_tiff_path page with
    | none => none
    | some img => some ({ s with pyvips_image := some img }, img)

/-- get_image_dimensions: cropped dimensions when present, else the
declared size_x and size_y; size_c always from the document.  Fails
(IndexError) when the document has no images. -/
def OMESlicer.get_image_dimensions (heap : Heap) (s : OMESlicer) :
    Option (Int × Int × Int) :=
  match heap.get s.ome with
  | none => none
  | some doc =>
    match doc.images with
    | [] => none
    | img :: _ =>
      match s.cropped_dimensions with
      | some (w, h) => some (w, h, img.pixels.size_c)
      | none => some (img.pixels.size_x, img.pixels.size_y, img.pixels.size_c)

/-- get_number_of_channels: size_c of the first image. -/
def OMESlicer.get_number_of_channels (heap : Heap) (s : OMESlicer) : Option Int :=
  match heap.get s.ome with
  | none => none
  | some doc =>
    match doc.images with
    | [] => none
    | img :: _ => some img.pixels.size_c

/-- The dtype_map dictionary lookup with default np.uint16, as in
get_dtype_from_metadata. -/
def dtype_map (t : String) : Dtype :=
  if t = "uint8" then Dtype.uint8
  else if t = "uint16" then Dtype.uint16
  else if t = "uint32" then Dtype.uint32
  else if t = "int8" then Dtype.int8
  else if t = "int16" then Dtype.int16
  else if t = "int32" then Dtype.int32
  else if t = "float" then Dtype.float32
  else if t = "double" then Dtype.float64
  else Dtype.uint16

/-- get_dtype_from_metadata: dtype_map applied to the declared pixel
type of the first image.  Fails (IndexError) when the document has no
images. -/
def OMESlicer.get_dtype_from_metadata (heap : Heap) (s : OMESlicer) : Option Dtype :=
  match heap.get s.ome with
  | none => none
  | some doc =>
    match doc.images with
    | [] => none
    | img :: _ => some (dtype_map img.pixels.type)

/-- get_ome_metadata: returns the ome_metadata attribute. -/
def OMESlicer.get_ome_metadata (s : OMESlicer) : OMEDoc :=
  s.ome_metadata

/-- pyvips crop (extract_area): defined exactly when the rectangle has
positive size and lies inside the plane; the result samples the source
at the offset. -/
def cropPlane (p : Plane) (x y w h : Int) : Option Plane :=
  if 0 ≤ x ∧ 0 ≤ y ∧ 0 < w ∧ 0 < h ∧
      x + w ≤ (p.width : Int) ∧ y + h ≤ (p.height : Int) then
    some ⟨w.toNat, h.toNat, fun i j => p.pix (i + x.toNat) (j + y.toNat)⟩
  else none

/-- A cropped channel buffered in memory: the numpy array built from
the cropped plane, tagged with the dtype resolved from the metadata. -/
structure ChannelArray where
  plane : Plane
  dtype : Dtype

/-- One page as handed to tifffile TiffWriter.write: the data and the
keyword arguments the code passes. -/
structure Page where
  data : Plane
  dtype : Dtype
  photometric : String
  compression : String
  tile : Nat × Nat
  description : Option OMEDoc
  metadata : Option Unit

/-- An I/O event of save: decoding one channel from the source file, or
writing one page of the output. -/
inductive Ev
  | readChannel (c : Nat)
  | writePage (c : Nat)
deriving DecidableEq

/-- The exceptions save can raise. -/
inductive SaveErr
  | noCropInfo
  | indexError
  | pageLoad (c : Nat)
  | badCrop (c : Nat)
deriving DecidableEq

/-- The extraction loop of save over a list of channel indices: decode
the page, crop it, buffer it; the first failing channel aborts the
loop.  Returns the read events performed together with the buffered
arrays. -/
def extractChannels (fs : FS) (path : String) (x y w h : Int) (dt : Dtype) :
    List Nat → List Ev × Except SaveErr (List ChannelArray)
  | [] => ([], Except.ok [])
  | c :: cs =>
    match pyvips_new_from_file fs path c with
    | none => ([Ev.readChannel c], Except.error (SaveErr.pageLoad c))
    | some pl =>
      match cropPlane pl x y w h with
      | none => ([Ev.readChannel c], Except.error (SaveErr.badCrop c))
      | some cp =>
        match extractChannels fs path x y w h dt cs with
        | (tr, Except.error e) => (Ev.readChannel c :: tr, Except.error e)
        | (tr, Except.ok arrs) =>
          (Ev.readChannel c :: tr, Except.ok (⟨cp, dt⟩ :: arrs))

/-- One tif.write call of the writer loop: the fixed keyword arguments
of core.py, the dtype forced to uint16, the metadata XML embedded as
the description of page 0 only. -/
def writePage1 (meta : OMEDoc) (p : Nat × ChannelArray) : Page :=
  { data := p.2.plane
    dtype := Dtype.uint16
    photometric := "minisblack"
    compression := "lzw"
    tile := (512, 512)
    description := if p.1 = 0 then some meta else none
    metadata := none }

/-- The writer loop of save over index-tagged buffered channels. -/
def writeChannels (meta : OMEDoc) (l : List (Nat × ChannelArray)) :
    List Ev × List Page :=
  (l.map fun p => Ev.writePage p.1, l.map (writePage1 meta))

/-- save: raises when crop_info is unset, before any I/O; otherwise
resolves channel count and dtype from the metadata, extracts every
channel into memory, and only then writes one page per channel in
channel order. -/
def OMESlicer.save (heap : Heap) (s : OMESlicer) (fs : FS) :
    List Ev × Except SaveErr (List Page) :=
  match s.crop_info with
  | none => ([], Except.error SaveErr.noCropInfo)
  | some (x, y, w, h) =>
    match OMESlicer.get_number_of_channels heap s,
          OMESlicer.get_dtype_from_metadata heap s with
    | some nc, some dt =>
      let n := nc.toNat
      match extractChannels fs s.ome_tiff_path x y w h dt (List.range n) with
      | (tr, Except.error e) => (tr, Except.error e)
      | (tr, Except.ok arrs) =>
        let wr := writeChannels s.ome_metadata ((List.range n).zip arrs)
        (tr ++ wr.1, Except.ok wr.2)
    | _, _ => ([], Except.error SaveErr.indexError)

/-- A chain of crop calls, each applied to the previous result. -/
def chainCrop : Heap → OMESlicer → List (Int × Int × Int × Int) →
    Option (Heap × OMESlicer)
  | heap, s, [] => some (heap, s)
  | heap, s, (x, y, w, h) :: rest =>
    match OMESlicer.crop heap s x y w h with
    | none => none
    | some (heap2, c) => chainCrop heap2 c rest

/-- A sequence of crop calls, each applied to the same parent slicer;
only the heap evolves. -/
def cropCalls : Heap → OMESlicer → List (Int × Int × Int × Int) → Option Heap
  | heap, _, [] => some heap
  | heap, s, (x, y, w, h) :: rest =>
    match OMESlicer.crop heap s x y w h with
    | none => none
    | some (heap2, _) => cropCalls heap2 s rest

/-! ### Heap lemmas -/

theorem Heap.length_alloc (h : Heap) (d : OMEDoc) :
    (h.alloc d).1.cells.length = h.cells.length + 1 := by
  simp [Heap.alloc]

theorem Heap.length_set (h : Heap) (r : Nat) (d : OMEDoc) :
    (h.set r d).cells.length = h.cells.length := by
  simp [Heap.set]

theorem Heap.get_alloc_self (h : Heap) (d : OMEDoc) :
    (h.alloc d).1.get (h.alloc d).2 = some d := by
  simp [Heap.alloc, Heap.get]

theorem Heap.get_alloc_lt (h : Heap) (d : OMEDoc) (r : Nat)
    (hr : r < h.cells.length) : (h.alloc d).1.get r = h.get r := by
  simp [Heap.alloc, Heap.get, List.getElem?_append_left hr]

theorem Heap.get_set_ne (h : Heap) (i r : Nat) (d : OMEDoc) (hne : r ≠ i) :
    (h.set i d).get r = h.get r := by
  simp [Heap.set, Heap.get, List.getElem?_set_ne hne.symm]

theorem Heap.lt_of_get_eq_some (h : Heap) (r : Nat) (d : OMEDoc)
    (hget : h.get r = some d) : r < h.cells.length := by
  simp only [Heap.get] at hget
  exact (List.getElem?_eq_some.mp hget).1

/-! ### Characterization of crop -/

theorem crop_eq (heap : Heap) (s : OMESlicer) (doc : OMEDoc) (img : OMEImage)
    (rest : List OMEImage) (x y w h : Int)
    (hdoc : heap.get s.ome = some doc) (himgs : doc.images = img :: rest) :
    OMESlicer.crop heap s x y w h =
      some ((((heap.alloc doc).1.alloc doc).1).set
              ((heap.alloc doc).1.alloc doc).2 (cropDoc img rest w h),
        { ome_tiff_path := s.ome_tiff_path
          pyvips_image := none
          ome := (heap.alloc doc).2
          ome_metadata := cropDoc img rest w h
          crop_info := some (x, y, w, h)
          cropped_dimensions := some (w, h) }) := by
  simp only [OMESlicer.crop, hdoc]
  simp only [OMESlicer.update_metadata_for_crop, Heap.get_alloc_self, himgs]

theorem crop_inv (heap : Heap) (s : OMESlicer) (x y w h : Int) (heap' : Heap)
    (c : OMESlicer) (hc : OMESlicer.crop heap s x y w h = some (heap', c)) :
    ∃ doc img rest, heap.get s.ome = some doc ∧ doc.images = img :: rest := by
  simp only [OMESlicer.crop] at hc
  cases hdoc : heap.get s.ome with
  | none => rw [hdoc] at hc; exact absurd hc (by simp)
  | some doc =>
    rw [hdoc] at hc
    simp only [OMESlicer.update_metadata_for_crop, Heap.get_alloc_self] at hc
    cases himgs : doc.images with
    | nil => rw [himgs] at hc; exact absurd hc (by simp)
    | cons img rest => exact ⟨doc, img, rest, rfl, himgs⟩

theorem crop_props (heap : Heap) (s : OMESlicer) (x y w h : Int) (heap' : Heap)
    (c : OMESlicer) (doc : OMEDoc)
    (hc : OMESlicer.crop heap s x y w h = some (heap', c))
    (hdoc : heap.get s.ome = some doc) :
    ∃ img rest, doc.images = img :: rest ∧
      c.ome_tiff_path = s.ome_tiff_path ∧
      c.pyvips_image = none ∧
      c.ome = heap.cells.length ∧
      c.ome_metadata = cropDoc img rest w h ∧
      c.crop_info = some (x, y, w, h) ∧
      c.cropped_dimensions = some (w, h) ∧
      heap'.get c.ome = some doc ∧
      (∀ r, r < heap.cells.length → heap'.get r = heap.get r) ∧
      heap.cells.length ≤ heap'.cells.length := by
  obtain ⟨doc', img, rest, hdoc', himgs⟩ :=
    crop_inv heap s x y w h heap' c hc
  rw [hdoc'] at hdoc
  injection hdoc with hdd
  subst hdd
  rw [crop_eq heap s doc' img rest x y w h hdoc' himgs] at hc
  injection hc with hpair
  injection hpair with hh hcs
  subst hh
  subst hcs
  have hA2 : ((heap.alloc doc').1.alloc doc').2 = heap.cells.length + 1 := by
    simp [Heap.alloc]
  refine ⟨img, rest, himgs, rfl, rfl, rfl, rfl, rfl, rfl, ?_, ?_, ?_⟩
  · show Heap.get _ (heap.alloc doc').2 = some doc'
    rw [Heap.get_set_ne]
    · rw [Heap.get_alloc_lt]
      · exact Heap.get_alloc_self heap doc'
      · rw [Heap.length_alloc]
        exact Nat.lt_succ_self _
    · rw [hA2]
      exact Nat.ne_of_lt (Nat.lt_succ_self _)
  · intro r hr
    rw [Heap.get_set_ne]
    · rw [Heap.get_alloc_lt, Heap.get_alloc_lt]
      · exact hr
      · rw [Heap.length_alloc]
        exact Nat.lt_succ_of_lt hr
    · rw [hA2]
      exact Nat.ne_of_lt (Nat.lt_succ_of_lt hr)
  · rw [Heap.length_set, Heap.length_alloc, Heap.length_alloc]
    exact Nat.le_add_right _ 2

/-! ### Characterization of the save loops -/

theorem extractChannels_ok (fs : FS) (path : String) (x y w h : Int) (dt : Dtype)
    (l : List Nat) :
    (∀ c ∈ l, ∃ pl, pyvips_new_from_file fs path c = some pl ∧
      (cropPlane pl x y w h).isSome = true) →
    ∃ arrs, extractChannels fs path x y w h dt l =
      (l.map Ev.readChannel, Except.ok arrs) ∧ arrs.length = l.length := by
  induction l with
  | nil => exact fun _ => ⟨[], rfl, rfl⟩
  | cons c cs ih =>
    intro hall
    obtain ⟨pl, hpl, hcp⟩ := hall c (List.mem_cons_self c cs)
    obtain ⟨cp, hcpeq⟩ := Option.isSome_iff_exists.mp hcp
    obtain ⟨arrs, hexcs, hlen⟩ := ih (fun d hd => hall d (List.mem_cons_of_mem c hd))
    refine ⟨⟨cp, dt⟩ :: arrs, ?_, by simp [hlen]⟩
    simp only [extractChannels, hpl, hcpeq, hexcs, List.map_cons]

theorem extractChannels_ok_inv (fs : FS) (path : String) (x y w h : Int)
    (dt : Dtype) (l : List Nat) :
    ∀ tr arrs, extractChannels fs path x y w h dt l = (tr, Except.ok arrs) →
      tr = l.map Ev.readChannel ∧ arrs.length = l.length := by
  induction l with
  | nil =>
    intro tr arrs hc
    injection hc with h1 h2
    injection h2 with h3
    subst h1
    subst h3
    exact ⟨rfl, rfl⟩
  | cons c cs ih =>
    intro tr arrs hc
    cases hpl : pyvips_new_from_file fs path c with
    | none => simp [extractChannels, hpl] at hc
    | some pl =>
      cases hcp : cropPlane pl x y w h with
      | none => simp [extractChannels, hpl, hcp] at hc
      | some cp =>
        cases hexcs : extractChannels fs path x y w h dt cs with
        | mk trE res =>
          cases res with
          | error e => simp [extractChannels, hpl, hcp, hexcs] at hc
          | ok arrs2 =>
            simp only [extractChannels, hpl, hcp, hexcs] at hc
            injection hc with h1 h2
            injection h2 with h3
            subst h1
            subst h3
            obtain ⟨htr, hlen⟩ := ih trE arrs2 hexcs
            subst htr
            exact ⟨by simp, by simp [hlen]⟩

theorem map_writePage_zip (n : Nat) (arrs : List ChannelArray)
    (hle : n ≤ arrs.length) :
    ((List.range n).zip arrs).map (fun p => Ev.writePage p.1) =
      (List.range n).map Ev.writePage := by
  have hle2 : (List.range n).length ≤ arrs.length := by
    rw [List.length_range]
    exact hle
  calc ((List.range n).zip arrs).map (fun p => Ev.writePage p.1)
      = (((List.range n).zip arrs).map Prod.fst).map Ev.writePage := by
        rw [List.map_map]
        rfl
    _ = (List.range n).map Ev.writePage := by
        rw [List.map_fst_zip _ _ hle2]

theorem save_ok (heap : Heap) (s : OMESlicer) (fs : FS) (x y w h : Int)
    (doc : OMEDoc) (img : OMEImage) (rest : List OMEImage)
    (hci : s.crop_info = some (x, y, w, h))
    (hdoc : heap.get s.ome = some doc)
    (himgs : doc.images = img :: rest)
    (hex : ∀ c ∈ List.range img.pixels.size_c.toNat,
      ∃ pl, pyvips_new_from_file fs s.ome_tiff_path c = some pl ∧
        (cropPlane pl x y w h).isSome = true) :
    ∃ arrs, arrs.length = img.pixels.size_c.toNat ∧
      OMESlicer.save heap s fs =
        ((List.range img.pixels.size_c.toNat).map Ev.readChannel ++
          (List.range img.pixels.size_c.toNat).map Ev.writePage,
         Except.ok (((List.range img.pixels.size_c.toNat).zip arrs).map
           (writePage1 s.ome_metadata))) := by
  have hnc : OMESlicer.get_number_of_channels heap s = some img.pixels.size_c := by
    simp [OMESlicer.get_number_of_channels, hdoc, himgs]
  have hdt : OMESlicer.get_dtype_from_metadata heap s =
      some (dtype_map img.pixels.type) := by
    simp [OMESlicer.get_dtype_from_metadata, hdoc, himgs]
  obtain ⟨arrs, hextract, hlen⟩ := extractChannels_ok fs s.ome_tiff_path x y w h
    (dtype_map img.pixels.type) (List.range img.pixels.size_c.toNat) hex
  have hlen2 : arrs.length = img.pixels.size_c.toNat := by
    rw [hlen, List.length_range]
  refine ⟨arrs, hlen2, ?_⟩
  simp only [OMESlicer.save, hci, hnc, hdt, hextract, writeChannels]
  rw [map_writePage_zip _ _ (le_of_eq hlen2.symm)]

theorem save_ok_inv (heap : Heap) (s : OMESlicer) (fs : FS) (tr : List Ev)
    (pages : List Page) (hs : OMESlicer.save heap s fs = (tr, Except.ok pages)) :
    ∃ nc arrs, OMESlicer.get_number_of_channels heap s = some nc ∧
      arrs.length = nc.toNat ∧
      tr = (List.range nc.toNat).map Ev.readChannel ++
        (List.range nc.toNat).map Ev.writePage ∧
      pages = ((List.range nc.toNat).zip arrs).map (writePage1 s.ome_metadata) := by
  cases hci : s.crop_info with
  | none => simp [OMESlicer.save, hci] at hs
  | some q =>
    obtain ⟨x, y, w, h⟩ := q
    cases hnc : OMESlicer.get_number_of_channels heap s with
    | none => simp [OMESlicer.save, hci, hnc] at hs
    | some nc =>
      cases hdt : OMESlicer.get_dtype_from_metadata heap s with
      | none => simp [OMESlicer.save, hci, hnc, hdt] at hs
      | some dt =>
        cases hex : extractChannels fs s.ome_tiff_path x y w h dt
            (List.range nc.toNat) with
        | mk trE res =>
          cases res with
          | error e => simp [OMESlicer.save, hci, hnc, hdt, hex] at hs
          | ok arrs =>
            simp only [OMESlicer.save, hci, hnc, hdt, hex, writeChannels] at hs
            injection hs with h1 h2
            injection h2 with h3
            obtain ⟨htr, hlen⟩ := extractChannels_ok_inv fs s.ome_tiff_path
              x y w h dt (List.range nc.toNat) trE arrs hex
            have hlen2 : arrs.length = nc.toNat := by
              rw [hlen, List.length_range]
            refine ⟨nc, arrs, rfl, hlen2, ?_, h3.symm⟩
            rw [← h1, htr, map_writePage_zip _ _ (le_of_eq hlen2.symm)]

theorem save_congr (h1 h2 : Heap) (s1 s2 : OMESlicer) (fs : FS)
    (e1 : s1.crop_info = s2.crop_info)
    (e2 : s1.ome_tiff_path = s2.ome_tiff_path)
    (e3 : s1.ome_metadata = s2.ome_metadata)
    (e4 : h1.get s1.ome = h2.get s2.ome) :
    OMESlicer.save h1 s1 fs = OMESlicer.save h2 s2 fs := by
  simp only [OMESlicer.save, OMESlicer.get_number_of_channels,
    OMESlicer.get_dtype_from_metadata, e1, e2, e3, e4]

/-! ### fromPath, crop sequences, output pages -/

theorem fromPath_eq (heap : Heap) (fs : FS) (path : String) (f : SourceFile)
    (doc : OMEDoc) (hf : fs path = some f) (hm : f.ome_meta = some doc) :
    OMESlicer.fromPath heap fs path = some ((heap.alloc doc).1,
      { ome_tiff_path := path
        pyvips_image := none
        ome := (heap.alloc doc).2
        ome_metadata := doc
        crop_info := none
        cropped_dimensions := none }) := by
  simp [OMESlicer.fromPath, hf, hm]

theorem cropCalls_preserve (s : OMESlicer) (args : List (Int × Int × Int × Int)) :
    ∀ heap heap', cropCalls heap s args = some heap' →
      (∀ r, r < heap.cells.length → heap'.get r = heap.get r) ∧
      heap.cells.length ≤ heap'.cells.length := by
  induction args with
  | nil =>
    intro heap heap' hrun
    injection hrun with h1
    subst h1
    exact ⟨fun r _ => rfl, le_refl _⟩
  | cons a rest ih =>
    intro heap heap' hrun
    obtain ⟨x, y, w, h⟩ := a
    cases hcrop : OMESlicer.crop heap s x y w h with
    | none => simp [cropCalls, hcrop] at hrun
    | some q =>
      obtain ⟨heap2, c⟩ := q
      simp only [cropCalls, hcrop] at hrun
      obtain ⟨hlow2, hle2⟩ := ih heap2 heap' hrun
      obtain ⟨doc, img, rst, hdoc, himgs⟩ := crop_inv heap s x y w h heap2 c hcrop
      obtain ⟨_, _, _, _, _, _, _, _, _, _, hlow, hle⟩ :=
        crop_props heap s x y w h heap2 c doc hcrop hdoc
      refine ⟨fun r hr => ?_, le_trans hle hle2⟩
      rw [hlow2 r (lt_of_lt_of_le hr hle), hlow r hr]

theorem pages_spec (meta : OMEDoc) (n : Nat) (arrs : List ChannelArray)
    (hlen : arrs.length = n) (hn : 0 < n) :
    ∃ pg0 ptail, ((List.range n).zip arrs).map (writePage1 meta) = pg0 :: ptail ∧
      pg0.description = some meta ∧
      (∀ pg ∈ ptail, pg.description = none) ∧
      (pg0 :: ptail).length = n := by
  obtain ⟨m, rfl⟩ := Nat.exists_eq_succ_of_ne_zero hn.ne'
  cases arrs with
  | nil => exact absurd hlen (by simp)
  | cons a as =>
    have has : as.length = m := by
      simpa using hlen
    rw [List.range_succ_eq_map, List.zip_cons_cons, List.map_cons]
    refine ⟨writePage1 meta (0, a),
      (((List.range m).map Nat.succ).zip as).map (writePage1 meta),
      rfl, by simp [writePage1], ?_, ?_⟩
    · intro pg hpg
      obtain ⟨p, hpmem, hpeq⟩ := List.mem_map.mp hpg
      have hc1 : p.1 ∈ (List.range m).map Nat.succ := (List.of_mem_zip hpmem).1
      obtain ⟨k, _, hk⟩ := List.mem_map.mp hc1
      rw [← hpeq]
      simp [writePage1, ← hk]
    · simp [List.length_zip, has]

theorem chainCrop_last_save (pre : List (Int × Int × Int × Int)) :
    ∀ heap s doc heap2 d x y w h,
      Heap.get heap s.ome = some doc →
      chainCrop heap s (pre ++ [(x, y, w, h)]) = some (heap2, d) →
      d.ome_tiff_path = s.ome_tiff_path ∧
      d.crop_info = some (x, y, w, h) ∧
      ∃ heapD dD, OMESlicer.crop heap s x y w h = some (heapD, dD) ∧
        ∀ fs, OMESlicer.save heap2 d fs = OMESlicer.save heapD dD fs := by
  induction pre with
  | nil =>
    intro heap s doc heap2 d x y w h hdoc hchain
    rw [List.nil_append] at hchain
    cases hcrop : OMESlicer.crop heap s x y w h with
    | none => simp [chainCrop, hcrop] at hchain
    | some q =>
      obtain ⟨heapc, c⟩ := q
      simp only [chainCrop, hcrop] at hchain
      injection hchain with hp
      injection hp with h1 h2
      subst h1
      subst h2
      obtain ⟨img, rst, himgs, hpath, _, _, hmeta, hci, _, _, _, _⟩ :=
        crop_props heap s x y w h heapc c doc hcrop hdoc
      exact ⟨hpath, hci, heapc, c, rfl, fun fs => rfl⟩
  | cons a pre2 ih =>
    intro heap s doc heap2 d x y w h hdoc hchain
    obtain ⟨ax, ay, aw, ah⟩ := a
    rw [List.cons_append] at hchain
    cases hcrop : OMESlicer.crop heap s ax ay aw ah with
    | none => simp [chainCrop, hcrop] at hchain
    | some q =>
      obtain ⟨heap1, s1⟩ := q
      simp only [chainCrop, hcrop] at hchain
      obtain ⟨img, rst, himgs, hpath1, _, _, _, _, _, hcell1, _, _⟩ :=
        crop_props heap s ax ay aw ah heap1 s1 doc hcrop hdoc
      obtain ⟨hpathd, hcid, heapD1, dD1, hcropD1, hsave1⟩ :=
        ih heap1 s1 doc heap2 d x y w h hcell1 hchain
      have hdirect := crop_eq heap s doc img rst x y w h hdoc himgs
      obtain ⟨img2, rst2, himgs2, hpathD, _, _, hmetaD, hciD, _, hcellD, _, _⟩ :=
        crop_props heap s x y w h _ _ doc hdirect hdoc
      rw [himgs] at himgs2
      injection himgs2 with e1 e2
      subst e1
      subst e2
      obtain ⟨img3, rst3, himgs3, hpath3, _, _, hmeta3, hci3, _, hcell3, _, _⟩ :=
        crop_props heap1 s1 x y w h heapD1 dD1 doc hcropD1 hcell1
      rw [himgs] at himgs3
      injection himgs3 with e3 e4
      subst e3
      subst e4
      refine ⟨hpathd.trans hpath1, hcid, _, _, hdirect, fun fs => ?_⟩
      refine (hsave1 fs).trans (save_congr heapD1 _ dD1 _ fs ?_ ?_ ?_ ?_)
      · rw [hci3, hciD]
      · rw [hpath3, hpath1, hpathD]
      · rw [hmeta3, hmetaD]
      · rw [hcell3, hcellD]

/-! ### Concrete fixtures used by the witness theorems -/

/-- A 4 by 4 source plane of constant value 5. -/
def planeE : Plane := ⟨4, 4, fun _ _ => 5⟩

/-- Declared pixels of the example source: 4 by 4, 2 channels, uint16. -/
def pixE : Pixels := ⟨4, 4, 2, "uint16"⟩

/-- The single image of the example document. -/
def imgE : OMEImage := ⟨pixE⟩

/-- The example OME document. -/
def docE : OMEDoc := ⟨[imgE]⟩

/-- The example source file: the document plus one plane per channel. -/
def fileE : SourceFile := ⟨some docE, [planeE, planeE]⟩

/-- A file system holding the example file at path a. -/
def fsE : FS := fun p => if p = "a" then some fileE else none

/-- The empty heap. -/
def heap0E : Heap := ⟨[]⟩

/-- The heap after loading the example file. -/
def heap1E : Heap := ⟨[docE]⟩

/-- The slicer loaded from the example file. -/
def s0E : OMESlicer := ⟨"a", none, 0, docE, none, none⟩

/-- The example document with sizes overwritten to 2 by 2. -/
def docCE : OMEDoc := ⟨[⟨⟨2, 2, 2, "uint16"⟩⟩]⟩

/-- The heap after cropping the loaded slicer at (1, 1, 2, 2). -/
def heap2E : Heap := ⟨[docE, docE, docCE]⟩

/-- The cropped slicer. -/
def s1E : OMESlicer := ⟨"a", none, 1, docCE, some (1, 1, 2, 2), some (2, 2)⟩

/-- The loaded slicer after caching page 0. -/
def s0pE : OMESlicer := ⟨"a", some planeE, 0, docE, none, none⟩

/-- The example document with sizes overwritten to 3 by 3. -/
def docC3E : OMEDoc := ⟨[⟨⟨3, 3, 2, "uint16"⟩⟩]⟩

/-- The heap after the chain crop(0,0,3,3) then crop(1,1,2,2). -/
def heapYE : Heap := ⟨[docE, docE, docC3E, docE, docCE]⟩

/-- The slicer resulting from that chain. -/
def dYE : OMESlicer := ⟨"a", none, 3, docCE, some (1, 1, 2, 2), some (2, 2)⟩

/-- The data plane of each written page in the example save. -/
def pageData : Plane := ⟨2, 2, fun _ _ => 5⟩

/-- Page 0 of the example save output. -/
def pg0E : Page := ⟨pageData, Dtype.uint16, "minisblack", "lzw", (512, 512), some docCE, none⟩

/-- Page 1 of the example save output. -/
def pg1E : Page := ⟨pageData, Dtype.uint16, "minisblack", "lzw", (512, 512), none, none⟩

/-! ### Claims -/

/-- Claim C2: for every descriptor and every sequence of crop calls on
it, the parent descriptor is unchanged: the heap cell holding its
in-memory metadata document, its reported dimensions, and its metadata
XML string (get_ome_metadata reads the ome_metadata attribute of the
untouched parent value) are identical before and after the calls. -/
theorem crop_calls_leave_parent_unchanged
    (heap heap2 : Heap) (s : OMESlicer) (doc : OMEDoc)
    (args : List (Int × Int × Int × Int))
    (hdoc : Heap.get heap s.ome = some doc)
    (hrun : cropCalls heap s args = some heap2) :
    Heap.get heap2 s.ome = Heap.get heap s.ome ∧
    OMESlicer.get_image_dimensions heap2 s = OMESlicer.get_image_dimensions heap s ∧
    OMESlicer.get_ome_metadata s = s.ome_metadata := by
  obtain ⟨hlow, _⟩ := cropCalls_preserve s args heap heap2 hrun
  have hcell := hlow s.ome (Heap.lt_of_get_eq_some heap s.ome doc hdoc)
  exact ⟨hcell, by simp only [OMESlicer.get_image_dimensions, hcell], rfl⟩

/-- Witness for C2 at the fixtures: one crop call on the loaded slicer. -/
theorem crop_calls_leave_parent_unchanged_witness :
    Heap.get heap2E s0E.ome = Heap.get heap1E s0E.ome ∧
    OMESlicer.get_image_dimensions heap2E s0E =
      OMESlicer.get_image_dimensions heap1E s0E ∧
    OMESlicer.get_ome_metadata s0E = s0E.ome_metadata :=
  crop_calls_leave_parent_unchanged heap1E heap2E s0E docE [(1, 1, 2, 2)] rfl rfl

/-- Claim C3: save on a descriptor constructed from a file path and
never cropped raises the invalid-state error with an empty I/O trace
(no file I/O at all, hence no output file), for any state of the file
system at save time. -/
theorem save_without_crop_fails_before_io
    (heap heap2 : Heap) (fs fs2 : FS) (path : String) (s : OMESlicer)
    (hload : OMESlicer.fromPath heap fs path = some (heap2, s)) :
    OMESlicer.save heap2 s fs2 = ([], Except.error SaveErr.noCropInfo) := by
  cases hf : fs path with
  | none => simp [OMESlicer.fromPath, hf] at hload
  | some f =>
    cases hm : f.ome_meta with
    | none => simp [OMESlicer.fromPath, hf, hm] at hload
    | some doc =>
      rw [fromPath_eq heap fs path f doc hf hm] at hload
      injection hload with hp
      injection hp with h1 h2
      subst h1
      subst h2
      rfl

/-- Witness for C3 at the fixtures. -/
theorem save_without_crop_fails_before_io_witness :
    OMESlicer.save heap1E s0E fsE = ([], Except.error SaveErr.noCropInfo) :=
  save_without_crop_fails_before_io heap0E heap1E fsE fsE "a" s0E rfl

/-- Claim C4: a descriptor derived by crop holds a deep copy of the
source metadata document (an equal document in a fresh cell, distinct
from the parent cell), and its ome_metadata is that copy with size_x
and size_y overwritten to the crop width and height while size_c and
the pixel type are inherited unchanged. -/
theorem crop_deep_copies_and_overwrites_size
    (heap heap2 : Heap) (s c : OMESlicer) (doc : OMEDoc) (img : OMEImage)
    (rest : List OMEImage) (x y w h : Int)
    (hdoc : Heap.get heap s.ome = some doc) (himgs : doc.images = img :: rest)
    (hcrop : OMESlicer.crop heap s x y w h = some (heap2, c)) :
    Heap.get heap2 c.ome = some doc ∧
    c.ome ≠ s.ome ∧
    c.ome_metadata = cropDoc img rest w h ∧
    ∃ mi, c.ome_metadata.images = mi :: rest ∧
      mi.pixels.size_x = w ∧ mi.pixels.size_y = h ∧
      mi.pixels.size_c = img.pixels.size_c ∧
      mi.pixels.type = img.pixels.type := by
  obtain ⟨img2, rst2, himgs2, _, _, home, hmeta, _, _, hcell, _, _⟩ :=
    crop_props heap s x y w h heap2 c doc hcrop hdoc
  rw [himgs] at himgs2
  injection himgs2 with e1 e2
  subst e1
  subst e2
  refine ⟨hcell, ?_, hmeta,
    { img with pixels := { img.pixels with size_x := w, size_y := h } },
    by rw [hmeta]; rfl, rfl, rfl, rfl, rfl⟩
  rw [home]
  exact (Nat.ne_of_lt (Heap.lt_of_get_eq_some heap s.ome doc hdoc)).symm

/-- Witness for C4 at the fixtures. -/
theorem crop_deep_copies_and_overwrites_size_witness :
    Heap.get heap2E s1E.ome = some docE ∧
    s1E.ome ≠ s0E.ome ∧
    s1E.ome_metadata = cropDoc imgE [] 2 2 ∧
    ∃ mi, s1E.ome_metadata.images = mi :: [] ∧
      mi.pixels.size_x = 2 ∧ mi.pixels.size_y = 2 ∧
      mi.pixels.size_c = imgE.pixels.size_c ∧
      mi.pixels.type = imgE.pixels.type :=
  crop_deep_copies_and_overwrites_size heap1E heap2E s0E s1E docE imgE []
    1 1 2 2 rfl rfl rfl

/-- Claim C5: every page of a successful save is written with the
16-bit unsigned dtype, whatever pixel type the source declares. -/
theorem save_writes_uint16_pages
    (heap : Heap) (s : OMESlicer) (fs : FS) (tr : List Ev) (pages : List Page)
    (hs : OMESlicer.save heap s fs = (tr, Except.ok pages)) :
    ∀ pg ∈ pages, pg.dtype = Dtype.uint16 := by
  obtain ⟨nc, arrs, _, _, _, hpages⟩ := save_ok_inv heap s fs tr pages hs
  intro pg hpg
  rw [hpages] at hpg
  obtain ⟨p, _, hpeq⟩ := List.mem_map.mp hpg
  rw [← hpeq]
  rfl

/-- Witness for C5 at the fixtures: the concrete save output. -/
theorem save_writes_uint16_pages_witness :
    OMESlicer.save heap2E s1E fsE =
      ([Ev.readChannel 0, Ev.readChannel 1, Ev.writePage 0, Ev.writePage 1],
        Except.ok [pg0E, pg1E]) ∧
    ∀ pg ∈ [pg0E, pg1E], pg.dtype = Dtype.uint16 :=
  ⟨rfl, save_writes_uint16_pages heap2E s1E fsE
    [Ev.readChannel 0, Ev.readChannel 1, Ev.writePage 0, Ev.writePage 1]
    [pg0E, pg1E] rfl⟩

/-- Claim C6: the pixel-type accessor is a pure query equal to the
dtype_map lookup on the declared type of the first image; dtype_map
sends each of the eight recognized strings to its numeric type and
every other string to the 16-bit unsigned default, raising no error. -/
theorem dtype_accessor_spec
    (heap : Heap) (s : OMESlicer) (doc : OMEDoc) (img : OMEImage)
    (rest : List OMEImage)
    (hdoc : Heap.get heap s.ome = some doc) (himgs : doc.images = img :: rest) :
    OMESlicer.get_dtype_from_metadata heap s = some (dtype_map img.pixels.type) ∧
    dtype_map "uint8" = Dtype.uint8 ∧ dtype_map "uint16" = Dtype.uint16 ∧
    dtype_map "uint32" = Dtype.uint32 ∧ dtype_map "int8" = Dtype.int8 ∧
    dtype_map "int16" = Dtype.int16 ∧ dtype_map "int32" = Dtype.int32 ∧
    dtype_map "float" = Dtype.float32 ∧ dtype_map "double" = Dtype.float64 ∧
    (∀ t : String, t ≠ "uint8" → t ≠ "uint16" → t ≠ "uint32" → t ≠ "int8" →
      t ≠ "int16" → t ≠ "int32" → t ≠ "float" → t ≠ "double" →
      dtype_map t = Dtype.uint16) := by
  refine ⟨by simp [OMESlicer.get_dtype_from_metadata, hdoc, himgs],
    by decide, by decide, by decide, by decide, by decide, by decide,
    by decide, by decide, ?_⟩
  intro t h1 h2 h3 h4 h5 h6 h7 h8
  simp [dtype_map, h1, h2, h3, h4, h5, h6, h7, h8]

/-- Witness for C6 at the fixtures. -/
theorem dtype_accessor_spec_witness :
    OMESlicer.get_dtype_from_metadata heap1E s0E = some (dtype_map "uint16") ∧
    dtype_map "uint8" = Dtype.uint8 ∧ dtype_map "uint16" = Dtype.uint16 ∧
    dtype_map "uint32" = Dtype.uint32 ∧ dtype_map "int8" = Dtype.int8 ∧
    dtype_map "int16" = Dtype.int16 ∧ dtype_map "int32" = Dtype.int32 ∧
    dtype_map "float" = Dtype.float32 ∧ dtype_map "double" = Dtype.float64 ∧
    (∀ t : String, t ≠ "uint8" → t ≠ "uint16" → t ≠ "uint32" → t ≠ "int8" →
      t ≠ "int16" → t ≠ "int32" → t ≠ "float" → t ≠ "double" →
      dtype_map t = Dtype.uint16) :=
  dtype_accessor_spec heap1E s0E docE imgE [] rfl rfl

/-- Claim C7: a descriptor constructed from a file path reports exactly
the size_x, size_y, size_c triple declared in the embedded metadata. -/
theorem dimensions_match_metadata
    (heap heap2 : Heap) (fs : FS) (path : String) (s : OMESlicer)
    (f : SourceFile) (doc : OMEDoc) (img : OMEImage) (rest : List OMEImage)
    (hf : fs path = some f) (hm : f.ome_meta = some doc)
    (himgs : doc.images = img :: rest)
    (hload : OMESlicer.fromPath heap fs path = some (heap2, s)) :
    OMESlicer.get_image_dimensions heap2 s =
      some (img.pixels.size_x, img.pixels.size_y, img.pixels.size_c) := by
  rw [fromPath_eq heap fs path f doc hf hm] at hload
  injection hload with hp
  injection hp with h1 h2
  subst h1
  subst h2
  simp only [OMESlicer.get_image_dimensions, Heap.get_alloc_self, himgs]

/-- Witness for C7 at the fixtures. -/
theorem dimensions_match_metadata_witness :
    OMESlicer.get_image_dimensions heap1E s0E = some (4, 4, 2) :=
  dimensions_match_metadata heap0E heap1E fsE "a" s0E fileE docE imgE []
    rfl rfl rfl rfl

/-- Claim C8: a successful save first reads every channel in index
order and only then writes the pages, also in index order: the trace
is all readChannel events for channels 0 to n-1 followed by all
writePage events for the same indices, and one page is written per
channel. -/
theorem save_reads_all_before_writing
    (heap : Heap) (s : OMESlicer) (fs : FS) (tr : List Ev) (pages : List Page)
    (nc : Int)
    (hnc : OMESlicer.get_number_of_channels heap s = some nc)
    (hs : OMESlicer.save heap s fs = (tr, Except.ok pages)) :
    tr = (List.range nc.toNat).map Ev.readChannel ++
      (List.range nc.toNat).map Ev.writePage ∧
    pages.length = nc.toNat := by
  obtain ⟨nc2, arrs, hnc2, hlen, htr, hpages⟩ := save_ok_inv heap s fs tr pages hs
  rw [hnc] at hnc2
  injection hnc2 with e
  subst e
  refine ⟨htr, ?_⟩
  rw [hpages]
  simp [List.length_zip, hlen]

/-- Witness for C8 at the fixtures. -/
theorem save_reads_all_before_writing_witness :
    ([Ev.readChannel 0, Ev.readChannel 1, Ev.writePage 0, Ev.writePage 1] =
      (List.range 2).map Ev.readChannel ++ (List.range 2).map Ev.writePage) ∧
    ([pg0E, pg1E] : List Page).length = 2 :=
  save_reads_all_before_writing heap2E s1E fsE
    [Ev.readChannel 0, Ev.readChannel 1, Ev.writePage 0, Ev.writePage 1]
    [pg0E, pg1E] 2 rfl rfl

/-- Claim C10: once load_pyvips_image has cached an image for some page
p, any later call with any page q returns that cached image and leaves
the slicer as it is: the page argument is ignored after the first load. -/
theorem load_pyvips_image_caches_first_page
    (fs : FS) (s s2 : OMESlicer) (p q : Nat) (img : Plane)
    (h0 : s.pyvips_image = none)
    (h1 : OMESlicer.load_pyvips_image fs s p = some (s2, img)) :
    s2.pyvips_image = some img ∧
    OMESlicer.load_pyvips_image fs s2 q = some (s2, img) := by
  simp only [OMESlicer.load_pyvips_image, h0] at h1
  cases hpl : pyvips_new_from_file fs s.ome_tiff_path p with
  | none => rw [hpl] at h1; exact absurd h1 (by simp)
  | some im =>
    rw [hpl] at h1
    injection h1 with hp
    injection hp with h2 h3
    subst h3
    subst h2
    exact ⟨rfl, rfl⟩

/-- Witness for C10 at the fixtures: page 0 is cached, page 1 is asked. -/
theorem load_pyvips_image_caches_first_page_witness :
    s0pE.pyvips_image = some planeE ∧
    OMESlicer.load_pyvips_image fsE s0pE 1 = some (s0pE, planeE) :=
  load_pyvips_image_caches_first_page fsE s0E s0pE 0 1 planeE rfl rfl

/-- Claim C1: saving a crop of a loaded descriptor, with the crop
region inside every source page, succeeds and writes one page per
source channel; the first page embeds the updated metadata declaring
size_x and size_y equal to the requested width and height, and every
later page carries no metadata. -/
theorem crop_save_declares_requested_size
    (heap heap1 heap2 : Heap) (fs : FS) (path : String) (s0 s : OMESlicer)
    (f : SourceFile) (doc : OMEDoc) (img : OMEImage) (rest : List OMEImage)
    (x y w h : Int)
    (hf : fs path = some f) (hm : f.ome_meta = some doc)
    (hload : OMESlicer.fromPath heap fs path = some (heap1, s0))
    (himgs : doc.images = img :: rest)
    (hcrop : OMESlicer.crop heap1 s0 x y w h = some (heap2, s))
    (hpos : 0 < img.pixels.size_c.toNat)
    (hbounds : ∀ c ∈ List.range img.pixels.size_c.toNat,
      ∃ pl, pyvips_new_from_file fs path c = some pl ∧
        (cropPlane pl x y w h).isSome = true) :
    ∃ tr pg0 ptail mi,
      OMESlicer.save heap2 s fs = (tr, Except.ok (pg0 :: ptail)) ∧
      (pg0 :: ptail).length = img.pixels.size_c.toNat ∧
      pg0.description = some ⟨mi :: rest⟩ ∧
      mi.pixels.size_x = w ∧ mi.pixels.size_y = h ∧
      (∀ pg ∈ ptail, pg.description = none) := by
  rw [fromPath_eq heap fs path f doc hf hm] at hload
  injection hload with hp
  injection hp with h1 h2
  subst h1
  subst h2
  obtain ⟨img2, rst2, himgs2, hpath, _, _, hmeta, hci, _, hcell, _, _⟩ :=
    crop_props _ _ x y w h heap2 s doc hcrop (Heap.get_alloc_self heap doc)
  rw [himgs] at himgs2
  injection himgs2 with e1 e2
  subst e1
  subst e2
  have hpath2 : s.ome_tiff_path = path := hpath
  rw [← hpath2] at hbounds
  obtain ⟨arrs, hlen, hsave⟩ :=
    save_ok heap2 s fs x y w h doc img rest hci hcell himgs hbounds
  obtain ⟨pg0, ptail, hpages, hdesc, htail, hplen⟩ :=
    pages_spec s.ome_metadata img.pixels.size_c.toNat arrs hlen hpos
  refine ⟨(List.range img.pixels.size_c.toNat).map Ev.readChannel ++
      (List.range img.pixels.size_c.toNat).map Ev.writePage, pg0, ptail,
    { img with pixels := { img.pixels with size_x := w, size_y := h } },
    ?_, hplen, ?_, rfl, rfl, htail⟩
  · rw [hsave, hpages]
  · rw [hdesc, hmeta]
    rfl

/-- Witness for C1 at the fixtures: crop (1, 1, 2, 2) of the 4 by 4,
2-channel example and its saved output. -/
theorem crop_save_declares_requested_size_witness :
    ∃ tr pg0 ptail mi,
      OMESlicer.save heap2E s1E fsE = (tr, Except.ok (pg0 :: ptail)) ∧
      (pg0 :: ptail).length = 2 ∧
      pg0.description = some ⟨[mi]⟩ ∧
      mi.pixels.size_x = 2 ∧ mi.pixels.size_y = 2 ∧
      (∀ pg ∈ ptail, pg.description = none) :=
  crop_save_declares_requested_size heap0E heap1E heap2E fsE "a" s0E s1E
    fileE docE imgE [] 1 1 2 2 rfl rfl rfl rfl rfl (by decide)
    (fun c hc => by
      have hc2 : c < 2 := List.mem_range.mp hc
      interval_cases c
      · exact ⟨planeE, rfl, rfl⟩
      · exact ⟨planeE, rfl, rfl⟩)

/-- Claim C9: any chain of crops keeps the original source path, keeps
only the last crop rectangle, and saving the chained descriptor
behaves exactly as saving the same rectangle cropped directly from the
original descriptor: the coordinates are interpreted relative to the
original source image, not relative to the parent crop. -/
theorem chained_crop_uses_original_coordinates
    (pre : List (Int × Int × Int × Int)) (heap heap2 : Heap) (s0 d : OMESlicer)
    (doc : OMEDoc) (x y w h : Int)
    (hdoc : Heap.get heap s0.ome = some doc)
    (hchain : chainCrop heap s0 (pre ++ [(x, y, w, h)]) = some (heap2, d)) :
    d.ome_tiff_path = s0.ome_tiff_path ∧
    d.crop_info = some (x, y, w, h) ∧
    ∃ heapD dD, OMESlicer.crop heap s0 x y w h = some (heapD, dD) ∧
      ∀ fs, OMESlicer.save heap2 d fs = OMESlicer.save heapD dD fs :=
  chainCrop_last_save pre heap s0 doc heap2 d x y w h hdoc hchain

/-- Witness for C9 at the fixtures: crop(0,0,3,3) then crop(1,1,2,2). -/
theorem chained_crop_uses_original_coordinates_witness :
    dYE.ome_tiff_path = s0E.ome_tiff_path ∧
    dYE.crop_info = some (1, 1, 2, 2) ∧
    ∃ heapD dD, OMESlicer.crop heap1E s0E 1 1 2 2 = some (heapD, dD) ∧
      ∀ fs, OMESlicer.save heapYE dYE fs = OMESlicer.save heapD dD fs :=
  chained_crop_uses_original_coordinates [(0, 0, 3, 3)] heap1E heapYE s0E dYE
    docE 1 1 2 2 rfl rfl
